import Mathlib

/-!
Verification of the `RunRouter` document router from
`src/bluesky/callbacks/core.py`.

The router keeps three indices:
  * `callbacks`   : start uid → list of subscriber callbacks
                    (a Python `defaultdict(list)`: a plain `[]`-lookup of a
                    missing key inserts an empty list);
  * `descriptors` : descriptor uid → start uid (a plain dict);
  * `resources`   : resource uid → start uid (a plain dict).

Documents are Python dicts; the handlers only ever read the fields
`uid`, `run_start`, `descriptor` and `resource`, so a document is embedded
as a record with those four string fields.  Subscriber callbacks are
identified by natural numbers; a call `cb(name, doc)` made by the router is
recorded as a delivery triple `(cb, name, doc)` in an output trace, in call
order.
-/

namespace BlueskyRouter

/-- The document kinds dispatched by `RunRouter` (the `name` argument of
`router(name, doc)`). -/
inductive DocName where
  | start
  | descriptor
  | resource
  | event
  | bulk_event
  | datum
  | bulk_datum
  | stop
  deriving DecidableEq, Repr

/-- A document, restricted to the fields the router reads:
`doc['uid']`, `doc['run_start']`, `doc['descriptor']`, `doc['resource']`. -/
structure Doc where
  uid : String := ""
  run_start : String := ""
  descriptor : String := ""
  resource : String := ""
  deriving DecidableEq, Repr

/-- A subscriber callback, identified by a number. -/
abbrev Cb := Nat

/-- One forwarded call `cb(name, doc)`, in the order the router makes them. -/
abbrev Delivery := Cb × DocName × Doc

/-- A callback factory: returns `none` ("not interested") or a callback. -/
abbrev Factory := Doc → Option Cb

/- Association lists embed Python dicts (unique keys, insertion order). -/

/-- Dict lookup `m[k]` as an option (no default-factory side effect). -/
def alistFind {α : Type} : List (String × α) → String → Option α
  | [], _ => none
  | (k, v) :: rest, key => if k = key then some v else alistFind rest key

/-- Dict assignment `m[k] = v`: overwrite in place, or append a new key. -/
def alistInsert {α : Type} : List (String × α) → String → α → List (String × α)
  | [], key, val => [(key, val)]
  | (k, v) :: rest, key, val =>
      if k = key then (key, val) :: rest else (k, v) :: alistInsert rest key val

/-- Dict deletion `del m[k]` / `m.pop(k)`: drop the first entry with that key. -/
def alistErase {α : Type} : List (String × α) → String → List (String × α)
  | [], _ => []
  | (k, v) :: rest, key => if k = key then rest else (k, v) :: alistErase rest key

/-- `defaultdict(list)` lookup `m[k]`: return the stored list, or insert and
return a fresh empty list when the key is missing (the Python side effect). -/
def ddGet (m : List (String × List Cb)) (k : String) :
    List Cb × List (String × List Cb) :=
  match alistFind m k with
  | some v => (v, m)
  | none => ([], m ++ [(k, [])])

/-- The mutable state of a `RunRouter`: the three indices set up in
`RunRouter.__init__`.  (`callback_factories` is fixed at construction and
never mutated, so it is passed as an explicit argument to `start`.) -/
structure RState where
  callbacks : List (String × List Cb) := []
  descriptors : List (String × String) := []
  resources : List (String × String) := []
  deriving DecidableEq, Repr

/-- The freshly constructed router: all three indices empty. -/
def initState : RState := {}

/-- The single error the router itself can raise: `dict.pop` on a missing
key in `RunRouter.stop` (`self.callbacks.pop(start_uid)`). -/
inductive RouterErr where
  | keyError
  deriving DecidableEq, Repr

/-- `RunRouter._event_or_bulk_event`: resolve `doc['descriptor']` through the
descriptor index; unknown descriptor returns `[]` untouched, known descriptor
does a defaultdict lookup of the start uid (with its insertion side effect). -/
def eventOrBulkEvent (s : RState) (doc : Doc) : List Cb × RState :=
  match alistFind s.descriptors doc.descriptor with
  | none => ([], s)
  | some start_uid =>
      let p := ddGet s.callbacks start_uid
      (p.1, { s with callbacks := p.2 })

/-- `RunRouter.event`. -/
def eventH (s : RState) (doc : Doc) : RState × List Delivery :=
  let p := eventOrBulkEvent s doc
  (p.2, p.1.map fun cb => (cb, DocName.event, doc))

/-- `RunRouter.bulk_event`. -/
def bulkEventH (s : RState) (doc : Doc) : RState × List Delivery :=
  let p := eventOrBulkEvent s doc
  (p.2, p.1.map fun cb => (cb, DocName.bulk_event, doc))

/-- `RunRouter._datum_or_bulk_datum`: symmetric, via the resource index. -/
def datumOrBulkDatum (s : RState) (doc : Doc) : List Cb × RState :=
  match alistFind s.resources doc.resource with
  | none => ([], s)
  | some start_uid =>
      let p := ddGet s.callbacks start_uid
      (p.1, { s with callbacks := p.2 })

/-- `RunRouter.datum`. -/
def datumH (s : RState) (doc : Doc) : RState × List Delivery :=
  let p := datumOrBulkDatum s doc
  (p.2, p.1.map fun cb => (cb, DocName.datum, doc))

/-- `RunRouter.bulk_datum`. -/
def bulkDatumH (s : RState) (doc : Doc) : RState × List Delivery :=
  let p := datumOrBulkDatum s doc
  (p.2, p.1.map fun cb => (cb, DocName.bulk_datum, doc))

/-- `RunRouter.descriptor`: `self.callbacks[doc['run_start']]` (a defaultdict
lookup, inserting an empty entry when missing); if the list is empty return
without registering; otherwise record `descriptor uid → start uid` and
forward to each callback in list order. -/
def descriptorH (s : RState) (doc : Doc) : RState × List Delivery :=
  let p := ddGet s.callbacks doc.run_start
  let s1 : RState := { s with callbacks := p.2 }
  if p.1 = [] then (s1, [])
  else
    ({ s1 with descriptors := alistInsert s1.descriptors doc.uid doc.run_start },
     p.1.map fun cb => (cb, DocName.descriptor, doc))

/-- `RunRouter.resource`: symmetric, via the resource index. -/
def resourceH (s : RState) (doc : Doc) : RState × List Delivery :=
  let p := ddGet s.callbacks doc.run_start
  let s1 : RState := { s with callbacks := p.2 }
  if p.1 = [] then (s1, [])
  else
    ({ s1 with resources := alistInsert s1.resources doc.uid doc.run_start },
     p.1.map fun cb => (cb, DocName.resource, doc))

/-- `RunRouter.start`: call every factory in registration order; each `None`
is skipped, every returned callback is appended to
`self.callbacks[doc['uid']]` (a defaultdict lookup followed by
`list.append`).  No duplicate-uid check exists, and no entry at all is
created when every factory declines. -/
def startH (factories : List Factory) (s : RState) (doc : Doc) : RState :=
  match factories with
  | [] => s
  | f :: rest =>
      match f doc with
      | none => startH rest s doc
      | some cb =>
          let p := ddGet s.callbacks doc.uid
          startH rest
            { s with callbacks := alistInsert p.2 doc.uid (p.1 ++ [cb]) } doc

/-- The first half of `RunRouter.stop`, up to and including the index purges:
`self.callbacks.pop(start_uid)` (raising `KeyError` if absent), the early
return when the popped list is empty (which skips the purges), and otherwise
the removal of every descriptor/resource entry mapping to this start uid.
Returns the state in force when the forwarding loop runs, together with the
popped callback list. -/
def stopPurge (s : RState) (doc : Doc) : Except RouterErr (RState × List Cb) :=
  match alistFind s.callbacks doc.run_start with
  | none => .error .keyError
  | some cbs =>
      let s1 : RState := { s with callbacks := alistErase s.callbacks doc.run_start }
      if cbs = [] then .ok (s1, cbs)
      else
        .ok ({ s1 with
                descriptors := s1.descriptors.filter fun kv => kv.2 ≠ doc.run_start,
                resources := s1.resources.filter fun kv => kv.2 ≠ doc.run_start },
             cbs)

/-- `RunRouter.stop`: purge first (`stopPurge`), then forward `('stop', doc)`
to each popped callback in list order. -/
def stopH (s : RState) (doc : Doc) : Except RouterErr (RState × List Delivery) :=
  (stopPurge s doc).map fun p =>
    (p.1, p.2.map fun cb => (cb, DocName.stop, doc))

/-- `router(name, doc)`: dispatch by document kind, as the dynamic
`getattr(self, name)(doc)` dispatch does.  Every handler except `stop` is
total; `stop` may raise `KeyError`. -/
def submit (factories : List Factory) (s : RState) (name : DocName) (doc : Doc) :
    Except RouterErr (RState × List Delivery) :=
  match name with
  | .start => .ok (startH factories s doc, [])
  | .descriptor => .ok (descriptorH s doc)
  | .resource => .ok (resourceH s doc)
  | .event => .ok (eventH s doc)
  | .bulk_event => .ok (bulkEventH s doc)
  | .datum => .ok (datumH s doc)
  | .bulk_datum => .ok (bulkDatumH s doc)
  | .stop => stopH s doc

/-- A tagged document: the `(name, doc)` pair handed to the router. -/
abbrev TDoc := DocName × Doc

/-- Run a whole submission sequence from a state, accumulating the delivery
trace; an uncaught `KeyError` aborts the remainder of the stream (the trace
made so far has still happened). -/
def runSeq (factories : List Factory) (s : RState) :
    List TDoc → RState × List Delivery × Option RouterErr
  | [] => (s, [], none)
  | td :: rest =>
      match submit factories s td.1 td.2 with
      | .error e => (s, [], some e)
      | .ok (s1, ds) =>
          let r := runSeq factories s1 rest
          (r.1, ds ++ r.2.1, r.2.2)

/-- Fallible callback factories, for modelling a factory call that raises:
the result is either the raised exception (as a message) or the usual
`Option Cb`. -/
abbrev FactoryE := Doc → Except String (Option Cb)

/-- `RunRouter.start` when factory calls may raise.  The loop body is the
same as `startH`; a raising factory aborts the loop at once (the exception
propagates out of `start`, unwrapped — the router defines no wrapper
exception type), and the `callbacks` entries appended by the factories
already processed remain in place.  Returns the state observable after the
exception together with the exception, if any. -/
def startHE (factories : List FactoryE) (s : RState) (doc : Doc) :
    RState × Option String :=
  match factories with
  | [] => (s, none)
  | f :: rest =>
      match f doc with
      | .error e => (s, some e)
      | .ok none => startHE rest s doc
      | .ok (some cb) =>
          let p := ddGet s.callbacks doc.uid
          startHE rest
            { s with callbacks := alistInsert p.2 doc.uid (p.1 ++ [cb]) } doc

/- ### Association-list lemmas -/

theorem alistFind_mem {α : Type} {m : List (String × α)} {k : String} {v : α}
    (h : alistFind m k = some v) : (k, v) ∈ m := by
  induction m with
  | nil => simp [alistFind] at h
  | cons hd tl ih =>
      obtain ⟨k0, v0⟩ := hd
      by_cases hk : k0 = k
      · subst hk
        simp [alistFind] at h
        simp [h]
      · simp [alistFind, hk] at h
        exact List.mem_cons_of_mem _ (ih h)

theorem mem_alistInsert {α : Type} {m : List (String × α)} {k : String} {v : α}
    {x : String × α} (h : x ∈ alistInsert m k v) : x = (k, v) ∨ x ∈ m := by
  induction m with
  | nil => simp [alistInsert] at h; simp [h]
  | cons hd tl ih =>
      obtain ⟨k0, v0⟩ := hd
      by_cases hk : k0 = k
      · subst hk
        simp [alistInsert] at h
        rcases h with h | h
        · left; exact h
        · right; exact List.mem_cons_of_mem _ h
      · simp only [alistInsert, hk, if_false, List.mem_cons] at h
        rcases h with h | h
        · right; simp [h]
        · rcases ih h with h1 | h1
          · left; exact h1
          · right; exact List.mem_cons_of_mem _ h1

theorem mem_alistErase {α : Type} {m : List (String × α)} {k : String}
    {x : String × α} (h : x ∈ alistErase m k) : x ∈ m := by
  induction m with
  | nil => simp [alistErase] at h
  | cons hd tl ih =>
      obtain ⟨k0, v0⟩ := hd
      by_cases hk : k0 = k
      · simp only [alistErase, hk, if_true] at h
        exact List.mem_cons_of_mem _ h
      · simp only [alistErase, hk, if_false, List.mem_cons] at h
        rcases h with h | h
        · simp [h]
        · exact List.mem_cons_of_mem _ (ih h)

theorem alistFind_insert_self {α : Type} (m : List (String × α)) (k : String)
    (v : α) : alistFind (alistInsert m k v) k = some v := by
  induction m with
  | nil => simp [alistInsert, alistFind]
  | cons hd tl ih =>
      obtain ⟨k0, v0⟩ := hd
      by_cases hk : k0 = k
      · simp [alistInsert, hk, alistFind]
      · simp [alistInsert, hk, alistFind, ih]

theorem alistFind_insert_ne {α : Type} (m : List (String × α)) (k k' : String)
    (v : α) (h : k' ≠ k) :
    alistFind (alistInsert m k v) k' = alistFind m k' := by
  have hk' : ¬(k = k') := fun h1 => h h1.symm
  induction m with
  | nil => simp [alistInsert, alistFind, hk']
  | cons hd tl ih =>
      obtain ⟨k0, v0⟩ := hd
      by_cases hk : k0 = k
      · subst hk
        simp [alistInsert, alistFind, hk']
      · simp [alistInsert, hk, alistFind, ih]

theorem alistFind_append {α : Type} (m m2 : List (String × α)) (k : String)
    (h : alistFind m k = none) :
    alistFind (m ++ m2) k = alistFind m2 k := by
  induction m with
  | nil => simp
  | cons hd tl ih =>
      obtain ⟨k0, v0⟩ := hd
      by_cases hk : k0 = k
      · simp [alistFind, hk] at h
      · simp only [alistFind, hk, if_false, List.cons_append] at *
        exact ih h

theorem alistErase_append_last {α : Type} (m : List (String × α)) (k : String)
    (v : α) (h : alistFind m k = none) :
    alistErase (m ++ [(k, v)]) k = m := by
  induction m with
  | nil => simp [alistErase]
  | cons hd tl ih =>
      obtain ⟨k0, v0⟩ := hd
      by_cases hk : k0 = k
      · simp [alistFind, hk] at h
      · simp only [alistFind, hk, if_false] at h
        show alistErase ((k0, v0) :: (tl ++ [(k, v)])) k = (k0, v0) :: tl
        simp only [alistErase, hk, if_false]
        exact congrArg _ (ih h)

theorem alistFind_erase_self {α : Type} (m : List (String × α)) (k : String)
    (hnd : (m.map Prod.fst).Nodup) :
    alistFind (alistErase m k) k = none := by
  induction m with
  | nil => simp [alistErase, alistFind]
  | cons hd tl ih =>
      obtain ⟨k0, v0⟩ := hd
      simp only [List.map_cons, List.nodup_cons] at hnd
      by_cases hk : k0 = k
      · simp only [alistErase, hk, if_true]
        cases hfind : alistFind tl k with
        | none => rfl
        | some v1 =>
            exfalso
            have hmem := alistFind_mem hfind
            exact hnd.1 (hk ▸ List.mem_map_of_mem Prod.fst hmem)
      · simp only [alistErase, hk, if_false, alistFind, ih hnd.2]

theorem alistFind_filter_val_ne {α : Type} [DecidableEq α]
    {m : List (String × α)} {k : String} {u v : α}
    (h : alistFind (m.filter fun kv => kv.2 ≠ u) k = some v) : v ≠ u := by
  have hmem := alistFind_mem h
  have := List.of_mem_filter hmem
  simpa using this

theorem alistFind_eq_none_iff {α : Type} {m : List (String × α)} {k : String} :
    alistFind m k = none ↔ ∀ x ∈ m, x.1 ≠ k := by
  induction m with
  | nil => simp [alistFind]
  | cons hd tl ih =>
      obtain ⟨k0, v0⟩ := hd
      by_cases hk : k0 = k
      · subst hk
        simp [alistFind]
      · simp [alistFind, hk, ih, Ne.symm hk]

theorem alist_mem_unique {α : Type} {m : List (String × α)}
    (hnd : (m.map Prod.fst).Nodup) {k : String} {a b : α}
    (ha : (k, a) ∈ m) (hb : (k, b) ∈ m) : a = b := by
  induction m with
  | nil => simp at ha
  | cons hd tl ih =>
      simp only [List.map_cons, List.nodup_cons] at hnd
      rcases List.mem_cons.1 ha with ha1 | ha1 <;>
        rcases List.mem_cons.1 hb with hb1 | hb1
      · subst ha1
        injection hb1 with h1 h2
        exact h2.symm
      · subst ha1
        exact absurd (List.mem_map_of_mem Prod.fst hb1) hnd.1
      · subst hb1
        exact absurd (List.mem_map_of_mem Prod.fst ha1) hnd.1
      · exact ih hnd.2 ha1 hb1

theorem alistFind_filter_of_owner {α : Type} [DecidableEq α]
    (m : List (String × α)) (k : String) (u : α)
    (hnd : (m.map Prod.fst).Nodup) (h : alistFind m k = some u) :
    alistFind (m.filter fun kv => kv.2 ≠ u) k = none := by
  rw [alistFind_eq_none_iff]
  intro x hx hxk
  have hxm : x ∈ m := List.mem_of_mem_filter hx
  have hxu : x.2 ≠ u := by simpa using List.of_mem_filter hx
  have hku : (k, u) ∈ m := alistFind_mem h
  have hkx : (k, x.2) ∈ m := by
    have : x = (k, x.2) := by
      rw [← hxk]
    rw [← this]
    exact hxm
  exact hxu (alist_mem_unique hnd hkx hku)

theorem ddGet_of_some {m : List (String × List Cb)} {k : String} {L : List Cb}
    (h : alistFind m k = some L) : ddGet m k = (L, m) := by
  simp [ddGet, h]

theorem ddGet_of_none {m : List (String × List Cb)} {k : String}
    (h : alistFind m k = none) : ddGet m k = ([], m ++ [(k, [])]) := by
  simp [ddGet, h]


/- ### Handler-level lemmas -/

theorem startH_find_some (factories : List Factory) (s : RState) (doc : Doc)
    (L : List Cb) (h : alistFind s.callbacks doc.uid = some L) :
    alistFind (startH factories s doc).callbacks doc.uid
      = some (L ++ factories.filterMap fun f => f doc) ∧
    (startH factories s doc).descriptors = s.descriptors ∧
    (startH factories s doc).resources = s.resources := by
  induction factories generalizing s L with
  | nil => simp [startH, h]
  | cons f rest ih =>
      rw [startH]
      cases hf : f doc with
      | none => simpa [List.filterMap_cons, hf] using ih s L h
      | some cb =>
          simp only [ddGet_of_some h]
          have := ih { s with callbacks := alistInsert s.callbacks doc.uid (L ++ [cb]) }
            (L ++ [cb]) (alistFind_insert_self _ _ _)
          simpa [List.filterMap_cons, hf, List.append_assoc] using this

theorem startH_all_decline (factories : List Factory) (s : RState) (doc : Doc)
    (h : ∀ f ∈ factories, f doc = none) : startH factories s doc = s := by
  induction factories with
  | nil => rfl
  | cons f rest ih =>
      rw [startH, h f (by simp)]
      exact ih fun g hg => h g (List.mem_cons_of_mem _ hg)

theorem startH_find_none_accept (factories : List Factory) (s : RState)
    (doc : Doc) (h : alistFind s.callbacks doc.uid = none)
    (hne : factories.filterMap (fun f => f doc) ≠ []) :
    alistFind (startH factories s doc).callbacks doc.uid
      = some (factories.filterMap fun f => f doc) ∧
    (startH factories s doc).descriptors = s.descriptors ∧
    (startH factories s doc).resources = s.resources := by
  induction factories generalizing s with
  | nil => simp at hne
  | cons f rest ih =>
      rw [startH]
      cases hf : f doc with
      | none =>
          simp only [List.filterMap_cons, hf] at hne ⊢
          exact ih s h hne
      | some cb =>
          simp only [ddGet_of_none h]
          have hfind2 : alistFind
              (alistInsert (s.callbacks ++ [(doc.uid, [])]) doc.uid ([] ++ [cb]))
              doc.uid = some [cb] := alistFind_insert_self _ _ _
          have := startH_find_some rest
            { s with callbacks :=
                alistInsert (s.callbacks ++ [(doc.uid, [])]) doc.uid ([] ++ [cb]) }
            doc [cb] hfind2
          simpa [List.filterMap_cons, hf] using this

theorem descriptorH_unknown (s : RState) (doc : Doc)
    (h : alistFind s.callbacks doc.run_start = none) :
    descriptorH s doc
      = ({ s with callbacks := s.callbacks ++ [(doc.run_start, [])] }, []) := by
  simp [descriptorH, ddGet_of_none h]

theorem descriptorH_empty (s : RState) (doc : Doc)
    (h : alistFind s.callbacks doc.run_start = some []) :
    descriptorH s doc = (s, []) := by
  simp [descriptorH, ddGet_of_some h]

theorem descriptorH_known (s : RState) (doc : Doc) (L : List Cb)
    (h : alistFind s.callbacks doc.run_start = some L) (hne : L ≠ []) :
    descriptorH s doc
      = ({ s with descriptors := alistInsert s.descriptors doc.uid doc.run_start },
         L.map fun cb => (cb, DocName.descriptor, doc)) := by
  simp [descriptorH, ddGet_of_some h, hne]

theorem resourceH_unknown (s : RState) (doc : Doc)
    (h : alistFind s.callbacks doc.run_start = none) :
    resourceH s doc
      = ({ s with callbacks := s.callbacks ++ [(doc.run_start, [])] }, []) := by
  simp [resourceH, ddGet_of_none h]

theorem resourceH_empty (s : RState) (doc : Doc)
    (h : alistFind s.callbacks doc.run_start = some []) :
    resourceH s doc = (s, []) := by
  simp [resourceH, ddGet_of_some h]

theorem resourceH_known (s : RState) (doc : Doc) (L : List Cb)
    (h : alistFind s.callbacks doc.run_start = some L) (hne : L ≠ []) :
    resourceH s doc
      = ({ s with resources := alistInsert s.resources doc.uid doc.run_start },
         L.map fun cb => (cb, DocName.resource, doc)) := by
  simp [resourceH, ddGet_of_some h, hne]

theorem eventH_unknown (s : RState) (doc : Doc)
    (h : alistFind s.descriptors doc.descriptor = none) :
    eventH s doc = (s, []) := by
  simp [eventH, eventOrBulkEvent, h]

theorem bulkEventH_unknown (s : RState) (doc : Doc)
    (h : alistFind s.descriptors doc.descriptor = none) :
    bulkEventH s doc = (s, []) := by
  simp [bulkEventH, eventOrBulkEvent, h]

theorem eventH_known (s : RState) (doc : Doc) (r : String) (L : List Cb)
    (h : alistFind s.descriptors doc.descriptor = some r)
    (h2 : alistFind s.callbacks r = some L) :
    eventH s doc = (s, L.map fun cb => (cb, DocName.event, doc)) := by
  simp [eventH, eventOrBulkEvent, h, ddGet_of_some h2]

theorem bulkEventH_known (s : RState) (doc : Doc) (r : String) (L : List Cb)
    (h : alistFind s.descriptors doc.descriptor = some r)
    (h2 : alistFind s.callbacks r = some L) :
    bulkEventH s doc = (s, L.map fun cb => (cb, DocName.bulk_event, doc)) := by
  simp [bulkEventH, eventOrBulkEvent, h, ddGet_of_some h2]

theorem datumH_unknown (s : RState) (doc : Doc)
    (h : alistFind s.resources doc.resource = none) :
    datumH s doc = (s, []) := by
  simp [datumH, datumOrBulkDatum, h]

theorem bulkDatumH_unknown (s : RState) (doc : Doc)
    (h : alistFind s.resources doc.resource = none) :
    bulkDatumH s doc = (s, []) := by
  simp [bulkDatumH, datumOrBulkDatum, h]

theorem datumH_known (s : RState) (doc : Doc) (r : String) (L : List Cb)
    (h : alistFind s.resources doc.resource = some r)
    (h2 : alistFind s.callbacks r = some L) :
    datumH s doc = (s, L.map fun cb => (cb, DocName.datum, doc)) := by
  simp [datumH, datumOrBulkDatum, h, ddGet_of_some h2]

theorem bulkDatumH_known (s : RState) (doc : Doc) (r : String) (L : List Cb)
    (h : alistFind s.resources doc.resource = some r)
    (h2 : alistFind s.callbacks r = some L) :
    bulkDatumH s doc = (s, L.map fun cb => (cb, DocName.bulk_datum, doc)) := by
  simp [bulkDatumH, datumOrBulkDatum, h, ddGet_of_some h2]

theorem stopH_absent (s : RState) (doc : Doc)
    (h : alistFind s.callbacks doc.run_start = none) :
    stopH s doc = .error .keyError := by
  simp [stopH, stopPurge, h, Except.map]

theorem stopH_empty (s : RState) (doc : Doc)
    (h : alistFind s.callbacks doc.run_start = some []) :
    stopH s doc
      = .ok ({ s with callbacks := alistErase s.callbacks doc.run_start }, []) := by
  simp [stopH, stopPurge, h, Except.map]

theorem stopH_known (s : RState) (doc : Doc) (cbs : List Cb)
    (h : alistFind s.callbacks doc.run_start = some cbs) (hne : cbs ≠ []) :
    stopH s doc
      = .ok ({ callbacks := alistErase s.callbacks doc.run_start,
               descriptors := s.descriptors.filter fun kv => kv.2 ≠ doc.run_start,
               resources := s.resources.filter fun kv => kv.2 ≠ doc.run_start },
             cbs.map fun cb => (cb, DocName.stop, doc)) := by
  simp [stopH, stopPurge, h, hne, Except.map]



/- ### Claim C1 -/

/-- C1 counterexample: contrary to the claim, `submit(stop, doc)` for a
`run_start` uid with no subscriber-set entry is not a no-op.  A stop for a
run never started raises `KeyError` (`self.callbacks.pop` on a missing key),
and a second stop for the same run raises `KeyError` as well. -/
theorem c1_counterexample :
    stopH initState { run_start := "r1" } = Except.error RouterErr.keyError ∧
    (runSeq [fun _ => some 7] initState
        [(DocName.start, { uid := "r1" }),
         (DocName.stop, { run_start := "r1" }),
         (DocName.stop, { run_start := "r1" })]).2.2
      = some RouterErr.keyError := by
  constructor <;> rfl

/-- C1 (amended): `submit(stop, doc)` raises `KeyError` whenever
`doc.run_start` has no entry at all in the run-to-subscribers map (a run
never started, or one whose stop was already processed); it is a silent
no-op only when an empty-list entry is present (as left behind by a
defaultdict probe from an earlier descriptor/resource/event for an
uninterested run), in which case it merely pops that empty entry, delivers
nothing and leaves the descriptor and resource indices unchanged. -/
theorem c1_stop_unknown_raises (s : RState) (doc : Doc) :
    (alistFind s.callbacks doc.run_start = none →
       stopH s doc = Except.error RouterErr.keyError) ∧
    (alistFind s.callbacks doc.run_start = some [] →
       stopH s doc
         = Except.ok
             ({ s with callbacks := alistErase s.callbacks doc.run_start }, [])) :=
  ⟨stopH_absent s doc, stopH_empty s doc⟩

/-- C1 witness: both branches of the amended claim at concrete inputs. -/
theorem c1_witness :
    stopH initState { run_start := "w1" } = Except.error RouterErr.keyError ∧
    stopH { callbacks := [("w1", [])] } { run_start := "w1" }
      = Except.ok (initState, []) := by
  constructor
  · exact (c1_stop_unknown_raises initState { run_start := "w1" }).1 rfl
  · have h := (c1_stop_unknown_raises
      { callbacks := [("w1", [])] } { run_start := "w1" }).2 rfl
    exact h.trans (by rfl)

/- ### Claim C3 -/

/-- C3 counterexample: a second `start` whose uid already has a subscriber
set does not fail with any error — there is no `DuplicateRunError` in the
code — and the previously registered set `[7]` is extended to `[7, 7]`. -/
theorem c3_counterexample :
    submit [fun _ => some 7]
        (startH [fun _ => some 7] initState { uid := "r1" })
        DocName.start { uid := "r1" }
      = Except.ok ({ callbacks := [("r1", [7, 7])] }, []) := by rfl

/-- C3 (amended): a second `start` for an already-registered uid does not
fail; the factories are invoked again and every callback they return is
appended to the existing subscriber set for that uid (the prior entry is
extended in place, not overwritten). -/
theorem c3_duplicate_start_appends (factories : List Factory) (s : RState)
    (doc : Doc) (L : List Cb) (h : alistFind s.callbacks doc.uid = some L) :
    submit factories s DocName.start doc
      = Except.ok (startH factories s doc, []) ∧
    alistFind (startH factories s doc).callbacks doc.uid
      = some (L ++ factories.filterMap fun f => f doc) :=
  ⟨rfl, (startH_find_some factories s doc L h).1⟩

/-- C3 witness: the amended claim at a concrete duplicate start. -/
theorem c3_witness :
    submit [fun _ => some 8]
        { callbacks := [("w3", [7])] } DocName.start { uid := "w3" }
      = Except.ok (startH [fun _ => some 8]
          { callbacks := [("w3", [7])] } { uid := "w3" }, []) ∧
    alistFind (startH [fun _ => some 8]
        { callbacks := [("w3", [7])] } { uid := "w3" }).callbacks "w3"
      = some [7, 8] := by
  have h := c3_duplicate_start_appends [fun _ => some 8]
    { callbacks := [("w3", [7])] } { uid := "w3" } [7] rfl
  exact ⟨h.1, h.2.trans (by rfl)⟩

/- ### Claim C4 -/

/-- C4 counterexample: when every factory declines, `start` records nothing:
the run-to-subscribers map has no entry (not an empty set) for the uid, and
a subsequent descriptor for that run does not get its index entry
registered (the descriptor index stays empty). -/
theorem c4_counterexample :
    (startH [fun _ => none] initState { uid := "r1" }).callbacks = [] ∧
    alistFind (startH [fun _ => none] initState
        { uid := "r1" }).callbacks "r1" = none ∧
    (descriptorH (startH [fun _ => none] initState { uid := "r1" })
        { uid := "d1", run_start := "r1" }).1.descriptors = [] := by
  exact ⟨rfl, rfl, rfl⟩

/-- C4 (amended): when all registered factories decline a start document,
`start` leaves the router state entirely unchanged — no subscriber-set
entry, empty or otherwise, is recorded for `doc.uid`, so the run stays
unknown.  A subsequent descriptor or resource naming that run is dropped:
it delivers nothing and registers no descriptor/resource index entry; its
only effect is the defaultdict side effect of inserting an empty-list
entry for the uid into the run-to-subscribers map. -/
theorem c4_all_decline_unknown (factories : List Factory) (s : RState)
    (doc ddoc rdoc : Doc)
    (hall : ∀ f ∈ factories, f doc = none)
    (habs : alistFind s.callbacks doc.uid = none)
    (hd : ddoc.run_start = doc.uid) (hr : rdoc.run_start = doc.uid) :
    startH factories s doc = s ∧
    descriptorH s ddoc
      = ({ s with callbacks := s.callbacks ++ [(doc.uid, [])] }, []) ∧
    resourceH s rdoc
      = ({ s with callbacks := s.callbacks ++ [(doc.uid, [])] }, []) := by
  refine ⟨startH_all_decline factories s doc hall, ?_, ?_⟩
  · have h2 := descriptorH_unknown s ddoc (hd.symm ▸ habs)
    rw [hd] at h2
    exact h2
  · have h2 := resourceH_unknown s rdoc (hr.symm ▸ habs)
    rw [hr] at h2
    exact h2

/-- C4 witness: the amended claim at a concrete all-decline start. -/
theorem c4_witness :
    startH [fun _ => none] initState { uid := "w4" } = initState ∧
    descriptorH initState { uid := "wd4", run_start := "w4" }
      = ({ callbacks := [("w4", [])] }, []) ∧
    resourceH initState { uid := "wr4", run_start := "w4" }
      = ({ callbacks := [("w4", [])] }, []) := by
  have h := c4_all_decline_unknown [fun _ => none] initState { uid := "w4" }
    { uid := "wd4", run_start := "w4" } { uid := "wr4", run_start := "w4" }
    (by intro f hf; simp at hf; simp [hf]) rfl rfl rfl
  exact ⟨h.1, h.2.1.trans (by rfl), h.2.2.trans (by rfl)⟩

/- ### Claim C5 -/

/-- C5 counterexample: a factory that raises during `start` processing does
not leave the run unregistered — the callback appended by the earlier
factory remains in the run-to-subscribers map (a partial subscriber set is
left registered), and the error surfaces as the factory's own exception,
not a `FactoryError` wrapper (no such class exists in the code). -/
theorem c5_counterexample :
    startHE [fun _ => Except.ok (some 7), fun _ => Except.error "boom"]
        initState { uid := "r1" }
      = ({ callbacks := [("r1", [7])] }, some "boom") := by rfl

/-- C5 (amended): when a factory raises during `start` processing, the
exception propagates to the caller unwrapped and processing fails fast
(factories after the raising one are never invoked), but the subscriber-set
entries appended by the factories already processed remain registered: the
observable state is exactly the one produced by the successful prefix. -/
theorem c5_factory_error_partial (fs1 fs2 : List FactoryE) (f0 : FactoryE)
    (s : RState) (doc : Doc) (e : String)
    (h1 : ∀ f ∈ fs1, ∃ r, f doc = Except.ok r)
    (h0 : f0 doc = Except.error e) :
    startHE (fs1 ++ f0 :: fs2) s doc = ((startHE fs1 s doc).1, some e) := by
  induction fs1 generalizing s with
  | nil => simp only [List.nil_append, startHE, h0]
  | cons f rest ih =>
      obtain ⟨r, hf⟩ := h1 f (by simp)
      have hrest : ∀ g ∈ rest, ∃ r2, g doc = Except.ok r2 :=
        fun g hg => h1 g (List.mem_cons_of_mem _ hg)
      cases r with
      | none =>
          simp only [List.cons_append, startHE, hf]
          exact ih _ hrest
      | some cb =>
          simp only [List.cons_append, startHE, hf]
          exact ih _ hrest

/-- C5 witness: the amended claim at a concrete raising factory. -/
theorem c5_witness :
    startHE ([fun _ => Except.ok (some 7)] ++
        (fun _ => Except.error "boom") :: [fun _ => Except.ok (some 9)])
        initState { uid := "w5" }
      = ((startHE [fun _ => Except.ok (some 7)] initState { uid := "w5" }).1,
         some "boom") :=
  c5_factory_error_partial [fun _ => Except.ok (some 7)]
    [fun _ => Except.ok (some 9)] (fun _ => Except.error "boom")
    initState { uid := "w5" } "boom"
    (by intro f hf; simp at hf; exact ⟨some 7, by simp [hf]⟩) rfl

/- ### Claim C8 -/

/-- C8: an `event` or `bulk_event` whose descriptor uid was never
registered, and a `datum` or `bulk_datum` whose resource uid was never
registered, are complete no-ops: `submit` returns without error, delivers
nothing, and the state — in particular the descriptor and resource
indices — is unchanged. -/
theorem c8_unknown_refs_noop (factories : List Factory) (s : RState)
    (ed dd : Doc)
    (he : alistFind s.descriptors ed.descriptor = none)
    (hd : alistFind s.resources dd.resource = none) :
    submit factories s DocName.event ed = Except.ok (s, []) ∧
    submit factories s DocName.bulk_event ed = Except.ok (s, []) ∧
    submit factories s DocName.datum dd = Except.ok (s, []) ∧
    submit factories s DocName.bulk_datum dd = Except.ok (s, []) := by
  refine ⟨?_, ?_, ?_, ?_⟩ <;>
    simp [submit, eventH_unknown s ed he, bulkEventH_unknown s ed he,
      datumH_unknown s dd hd, bulkDatumH_unknown s dd hd]

/-- C8 witness: the claim at a concrete state with one unrelated run. -/
theorem c8_witness :
    submit [] { callbacks := [("w8", [3])], descriptors := [("wd8", "w8")] }
        DocName.event { descriptor := "other" }
      = Except.ok ({ callbacks := [("w8", [3])],
                     descriptors := [("wd8", "w8")] }, []) ∧
    submit [] { callbacks := [("w8", [3])], descriptors := [("wd8", "w8")] }
        DocName.datum { resource := "other" }
      = Except.ok ({ callbacks := [("w8", [3])],
                     descriptors := [("wd8", "w8")] }, []) := by
  have h := c8_unknown_refs_noop []
    { callbacks := [("w8", [3])], descriptors := [("wd8", "w8")] }
    { descriptor := "other" } { resource := "other" } rfl rfl
  exact ⟨h.1, h.2.2.1⟩

/- ### Claim C10 -/

/-- C10: a descriptor or resource whose `run_start` has no subscriber-set
entry is dropped without delivery and without touching the descriptor or
resource indices, but the defaultdict lookup inserts an empty subscriber
list for that uid into the run-to-subscribers map; consequently a later
stop for that never-started run finds the empty entry and returns without
raising (popping the entry restores the original state exactly), whereas a
stop for a run uid the router has never seen in any document raises
`KeyError`. -/
theorem c10_defaultdict_probe (s : RState) (ddoc rdoc sdoc : Doc)
    (h : alistFind s.callbacks ddoc.run_start = none)
    (hr : rdoc.run_start = ddoc.run_start)
    (hs : sdoc.run_start = ddoc.run_start) :
    descriptorH s ddoc
      = ({ s with callbacks := s.callbacks ++ [(ddoc.run_start, [])] }, []) ∧
    resourceH s rdoc
      = ({ s with callbacks := s.callbacks ++ [(ddoc.run_start, [])] }, []) ∧
    stopH { s with callbacks := s.callbacks ++ [(ddoc.run_start, [])] } sdoc
      = Except.ok (s, []) ∧
    stopH s sdoc = Except.error RouterErr.keyError := by
  refine ⟨descriptorH_unknown s ddoc h, ?_, ?_, ?_⟩
  · have h2 := resourceH_unknown s rdoc (hr.symm ▸ h)
    rw [hr] at h2
    exact h2
  · have hfind : alistFind (s.callbacks ++ [(ddoc.run_start, [])])
        sdoc.run_start = some [] := by
      rw [hs, alistFind_append _ _ _ h]
      simp [alistFind]
    have h2 := stopH_empty
      { s with callbacks := s.callbacks ++ [(ddoc.run_start, [])] } sdoc hfind
    rw [h2]
    have h3 : alistErase (s.callbacks ++ [(ddoc.run_start, [])]) sdoc.run_start
        = s.callbacks := by
      rw [hs]
      exact alistErase_append_last s.callbacks ddoc.run_start [] h
    simp [h3]
  · exact stopH_absent s sdoc (hs.symm ▸ h)

/-- C10 witness: the claim at a concrete never-started run. -/
theorem c10_witness :
    descriptorH initState { uid := "wd", run_start := "w10" }
      = ({ callbacks := [("w10", [])] }, []) ∧
    stopH { callbacks := [("w10", [])] } { run_start := "w10" }
      = Except.ok (initState, []) ∧
    stopH initState { run_start := "w10" }
      = Except.error RouterErr.keyError := by
  have h := c10_defaultdict_probe initState
    { uid := "wd", run_start := "w10" } { uid := "wr", run_start := "w10" }
    { run_start := "w10" } rfl rfl rfl
  exact ⟨h.1.trans (by rfl), h.2.2.1.trans (by rfl), h.2.2.2⟩



/- ### Claim C2 -/

/-- C2 counterexample: at a concrete known run (one subscriber, one
registered descriptor), the state in force while the stop forwarding loop
runs — the `stopPurge` result, computed by the code before any
`cb('stop', doc)` call — already has all three indices purged of the run,
so the subscriber receives its stop call when the run is no longer
addressable, contrary to the claim. -/
theorem c2_counterexample :
    (descriptorH (startH [fun _ => some 7] initState { uid := "r1" })
        { uid := "d1", run_start := "r1" }).1
      = { callbacks := [("r1", [7])], descriptors := [("d1", "r1")] } ∧
    stopPurge { callbacks := [("r1", [7])], descriptors := [("d1", "r1")] }
        { run_start := "r1" }
      = Except.ok (initState, [7]) ∧
    stopH { callbacks := [("r1", [7])], descriptors := [("d1", "r1")] }
        { run_start := "r1" }
      = Except.ok (initState, [(7, DocName.stop, { run_start := "r1" })]) := by
  exact ⟨rfl, rfl, rfl⟩

/-- C2 (amended): for a known run, `submit(stop, doc)` does forward
`(stop, doc)` to every subscriber in the run's set, in set order, but only
after removing the run's subscriber-set entry and every descriptor and
resource index entry targeting the run's uid: the state in force during the
forwarding loop (the `stopPurge` result) no longer resolves the run's uid
through any of the three indices. -/
theorem c2_stop_purges_before_forwarding (s : RState) (doc : Doc)
    (cbs : List Cb) (hnd : (s.callbacks.map Prod.fst).Nodup)
    (h : alistFind s.callbacks doc.run_start = some cbs) (hne : cbs ≠ []) :
    stopPurge s doc
      = Except.ok
          ({ callbacks := alistErase s.callbacks doc.run_start,
             descriptors := s.descriptors.filter fun kv => kv.2 ≠ doc.run_start,
             resources := s.resources.filter fun kv => kv.2 ≠ doc.run_start },
           cbs) ∧
    stopH s doc
      = Except.ok
          ({ callbacks := alistErase s.callbacks doc.run_start,
             descriptors := s.descriptors.filter fun kv => kv.2 ≠ doc.run_start,
             resources := s.resources.filter fun kv => kv.2 ≠ doc.run_start },
           cbs.map fun cb => (cb, DocName.stop, doc)) ∧
    alistFind (alistErase s.callbacks doc.run_start) doc.run_start = none ∧
    (∀ k v, alistFind (s.descriptors.filter fun kv => kv.2 ≠ doc.run_start) k
        = some v → v ≠ doc.run_start) ∧
    (∀ k v, alistFind (s.resources.filter fun kv => kv.2 ≠ doc.run_start) k
        = some v → v ≠ doc.run_start) := by
  refine ⟨by simp [stopPurge, h, hne], stopH_known s doc cbs h hne,
    alistFind_erase_self _ _ hnd, ?_, ?_⟩
  · intro k v hv
    exact alistFind_filter_val_ne hv
  · intro k v hv
    exact alistFind_filter_val_ne hv

/-- C2 witness: the amended claim at a concrete run. -/
theorem c2_witness :
    stopH { callbacks := [("w2", [5])], descriptors := [("wd2", "w2")] }
        { run_start := "w2" }
      = Except.ok
          ({ callbacks := alistErase [("w2", [5])] "w2",
             descriptors := [("wd2", "w2")].filter fun kv => kv.2 ≠ "w2",
             resources := ([] : List (String × String)).filter
               fun kv => kv.2 ≠ "w2" },
           [5].map fun cb => (cb, DocName.stop, { run_start := "w2" })) ∧
    alistFind (alistErase [("w2", [5])] "w2") "w2" = none := by
  have h := c2_stop_purges_before_forwarding
    { callbacks := [("w2", [5])], descriptors := [("wd2", "w2")] }
    { run_start := "w2" } [5] (by decide) rfl (by decide)
  exact ⟨h.2.1, h.2.2.1⟩

/- ### Claim C6 -/

/-- C6 counterexample: the claim fails for a second stop document.  After
`start{uid:r1}`, `descriptor{uid:d1, run_start:r1}`, `stop{run_start:r1}`,
a second `stop{run_start:r1}` — a subsequent document referencing the
stopped run — raises `KeyError` instead of resolving to unknown and being
dropped. -/
theorem c6_counterexample :
    (runSeq [fun _ => some 7] initState
        [(DocName.start, { uid := "r1" }),
         (DocName.descriptor, { uid := "d1", run_start := "r1" }),
         (DocName.stop, { run_start := "r1" }),
         (DocName.stop, { run_start := "r1" })]).2.2
      = some RouterErr.keyError := by rfl

/-- C6 (amended): after a known run's stop is processed (nonempty
subscriber set), no entry in any of the three indices references the run's
uid any more; every subsequent event/bulk_event through one of the run's
former descriptors, and every datum/bulk_datum through one of its former
resources, is a complete no-op; subsequent descriptor/resource documents
naming the run deliver nothing; but a second stop for the run raises
`KeyError` rather than being dropped. -/
theorem c6_stop_cleanup (s : RState) (doc : Doc) (cbs : List Cb)
    (hndc : (s.callbacks.map Prod.fst).Nodup)
    (hndd : (s.descriptors.map Prod.fst).Nodup)
    (hndr : (s.resources.map Prod.fst).Nodup)
    (h : alistFind s.callbacks doc.run_start = some cbs) (hne : cbs ≠ []) :
    ∃ s2 ds, stopH s doc = Except.ok (s2, ds) ∧
      alistFind s2.callbacks doc.run_start = none ∧
      (∀ k v, alistFind s2.descriptors k = some v → v ≠ doc.run_start) ∧
      (∀ k v, alistFind s2.resources k = some v → v ≠ doc.run_start) ∧
      (∀ ed : Doc, alistFind s.descriptors ed.descriptor = some doc.run_start →
         eventH s2 ed = (s2, []) ∧ bulkEventH s2 ed = (s2, [])) ∧
      (∀ dd : Doc, alistFind s.resources dd.resource = some doc.run_start →
         datumH s2 dd = (s2, []) ∧ bulkDatumH s2 dd = (s2, [])) ∧
      (∀ d2 : Doc, d2.run_start = doc.run_start →
         (descriptorH s2 d2).2 = [] ∧ (resourceH s2 d2).2 = []) ∧
      (∀ sd : Doc, sd.run_start = doc.run_start →
         stopH s2 sd = Except.error RouterErr.keyError) := by
  refine ⟨_, _, stopH_known s doc cbs h hne, ?_, ?_, ?_, ?_, ?_, ?_, ?_⟩
  · exact alistFind_erase_self _ _ hndc
  · intro k v hv
    exact alistFind_filter_val_ne hv
  · intro k v hv
    exact alistFind_filter_val_ne hv
  · intro ed hed
    have hnone := alistFind_filter_of_owner s.descriptors ed.descriptor
      doc.run_start hndd hed
    exact ⟨eventH_unknown _ ed hnone, bulkEventH_unknown _ ed hnone⟩
  · intro dd hdd
    have hnone := alistFind_filter_of_owner s.resources dd.resource
      doc.run_start hndr hdd
    exact ⟨datumH_unknown _ dd hnone, bulkDatumH_unknown _ dd hnone⟩
  · intro d2 hd2
    have hnone : alistFind (alistErase s.callbacks doc.run_start) d2.run_start
        = none := hd2.symm ▸ alistFind_erase_self _ _ hndc
    exact ⟨by rw [descriptorH_unknown _ d2 hnone],
           by rw [resourceH_unknown _ d2 hnone]⟩
  · intro sd hsd
    have hnone : alistFind (alistErase s.callbacks doc.run_start) sd.run_start
        = none := hsd.symm ▸ alistFind_erase_self _ _ hndc
    exact stopH_absent _ sd hnone

/-- C6 witness: the amended claim at the spec's concrete scenario
(`start r`, `descriptor d`, `stop r`, then `event{descriptor:d}`). -/
theorem c6_witness :
    ∃ s2 ds,
      stopH { callbacks := [("w6", [7])], descriptors := [("wd6", "w6")] }
          { run_start := "w6" } = Except.ok (s2, ds) ∧
      alistFind s2.callbacks "w6" = none ∧
      eventH s2 { descriptor := "wd6" } = (s2, []) := by
  obtain ⟨s2, ds, h1, h2, h3, h4, h5, h6, h7, h8⟩ := c6_stop_cleanup
    { callbacks := [("w6", [7])], descriptors := [("wd6", "w6")] }
    { run_start := "w6" } [7] (by decide) (by decide) (by decide) rfl
    (by decide)
  exact ⟨s2, ds, h1, h2, (h5 { descriptor := "wd6" } rfl).1⟩



/- ### Claim C7 -/

/-- In the `start` loop, the callbacks collected are exactly one per
accepting factory: the `filterMap` over the factory list has as many
elements as there are factories returning a callback. -/
theorem filterMap_length_eq_accepting (factories : List Factory) (doc : Doc) :
    (factories.filterMap fun f => f doc).length
      = (factories.filter fun f => (f doc).isSome).length := by
  induction factories with
  | nil => rfl
  | cons f rest ih =>
      cases hf : f doc with
      | none => simp [List.filterMap_cons, List.filter_cons, hf, ih]
      | some cb => simp [List.filterMap_cons, List.filter_cons, hf, ih]

/-- C7 counterexample: a start accepted by exactly zero factories records
no subscriber set at all — the run-to-subscribers map has no entry for the
uid, rather than a set with exactly zero entries. -/
theorem c7_counterexample :
    alistFind (startH [fun _ => none] initState { uid := "r7" }).callbacks "r7"
      = none := by rfl

/-- C7 (amended): for a start document accepted by at least one factory,
the subscriber set recorded for the run is exactly the accepting factories'
callbacks in factory-registration order — one entry per accepting factory —
and every later forwarding for the run (descriptor, resource, event,
bulk_event, datum, bulk_datum, stop) delivers to the stored subscribers in
exactly that stored order.  (When zero factories accept, no entry at all is
recorded.) -/
theorem c7_subscriber_order (factories : List Factory) (s s2 : RState)
    (doc : Doc) (L : List Cb)
    (habs : alistFind s.callbacks doc.uid = none)
    (hacc : factories.filterMap (fun f => f doc) ≠ [])
    (hL : alistFind s2.callbacks doc.uid = some L) :
    (alistFind (startH factories s doc).callbacks doc.uid
       = some (factories.filterMap fun f => f doc) ∧
     (factories.filterMap fun f => f doc).length
       = (factories.filter fun f => (f doc).isSome).length) ∧
    (∀ d2 : Doc, d2.run_start = doc.uid → L ≠ [] →
       (descriptorH s2 d2).2 = L.map fun cb => (cb, DocName.descriptor, d2)) ∧
    (∀ r2 : Doc, r2.run_start = doc.uid → L ≠ [] →
       (resourceH s2 r2).2 = L.map fun cb => (cb, DocName.resource, r2)) ∧
    (∀ ed : Doc, alistFind s2.descriptors ed.descriptor = some doc.uid →
       (eventH s2 ed).2 = (L.map fun cb => (cb, DocName.event, ed)) ∧
       (bulkEventH s2 ed).2 = L.map fun cb => (cb, DocName.bulk_event, ed)) ∧
    (∀ dd : Doc, alistFind s2.resources dd.resource = some doc.uid →
       (datumH s2 dd).2 = (L.map fun cb => (cb, DocName.datum, dd)) ∧
       (bulkDatumH s2 dd).2 = L.map fun cb => (cb, DocName.bulk_datum, dd)) ∧
    (∀ sd : Doc, sd.run_start = doc.uid →
       ∃ s3, stopH s2 sd
         = Except.ok (s3, L.map fun cb => (cb, DocName.stop, sd))) := by
  refine ⟨⟨(startH_find_none_accept factories s doc habs hacc).1,
    filterMap_length_eq_accepting factories doc⟩, ?_, ?_, ?_, ?_, ?_⟩
  · intro d2 hd2 hne
    rw [descriptorH_known s2 d2 L (hd2.symm ▸ hL) hne]
  · intro r2 hr2 hne
    rw [resourceH_known s2 r2 L (hr2.symm ▸ hL) hne]
  · intro ed hed
    exact ⟨by rw [eventH_known s2 ed doc.uid L hed hL],
           by rw [bulkEventH_known s2 ed doc.uid L hed hL]⟩
  · intro dd hdd
    exact ⟨by rw [datumH_known s2 dd doc.uid L hdd hL],
           by rw [bulkDatumH_known s2 dd doc.uid L hdd hL]⟩
  · intro sd hsd
    cases hL0 : L with
    | nil =>
        subst hL0
        exact ⟨_, stopH_empty s2 sd (hsd.symm ▸ hL)⟩
    | cons c cs =>
        have hk := stopH_known s2 sd L (hsd.symm ▸ hL) (by simp [hL0])
        rw [hL0] at hk
        exact ⟨_, hk⟩

/-- C7 witness: the amended claim at two concrete factories, one accepting
and one declining, and at a state holding the recorded set. -/
theorem c7_witness :
    alistFind (startH [fun _ => some 4, fun _ => none, fun _ => some 6]
        initState { uid := "w7" }).callbacks "w7" = some [4, 6] ∧
    (descriptorH { callbacks := [("w7", [4, 6])] }
        { uid := "wd7", run_start := "w7" }).2
      = [(4, DocName.descriptor, { uid := "wd7", run_start := "w7" }),
         (6, DocName.descriptor, { uid := "wd7", run_start := "w7" })] := by
  have h := c7_subscriber_order
    [fun _ => some 4, fun _ => none, fun _ => some 6]
    initState { callbacks := [("w7", [4, 6])] } { uid := "w7" } [4, 6]
    rfl (by decide) rfl
  refine ⟨h.1.1.trans (by rfl), ?_⟩
  have h2 := h.2.1 { uid := "wd7", run_start := "w7" } rfl (by decide)
  exact h2.trans (by rfl)




/-- `start` never touches the descriptor or resource indices. -/
theorem startH_indices_unchanged (factories : List Factory) (s : RState)
    (doc : Doc) :
    (startH factories s doc).descriptors = s.descriptors ∧
    (startH factories s doc).resources = s.resources := by
  induction factories generalizing s with
  | nil => exact ⟨rfl, rfl⟩
  | cons f rest ih =>
      rw [startH]
      cases hf : f doc with
      | none => exact ih s
      | some cb => exact ih _

/-- `event` on a registered descriptor: defaultdict lookup of the resolved
run, delivery to the returned list. -/
theorem eventH_found (s : RState) (doc : Doc) (r : String)
    (h : alistFind s.descriptors doc.descriptor = some r) :
    eventH s doc = ({ s with callbacks := (ddGet s.callbacks r).2 },
      (ddGet s.callbacks r).1.map fun cb => (cb, DocName.event, doc)) := by
  simp [eventH, eventOrBulkEvent, h]

/-- `bulk_event` on a registered descriptor. -/
theorem bulkEventH_found (s : RState) (doc : Doc) (r : String)
    (h : alistFind s.descriptors doc.descriptor = some r) :
    bulkEventH s doc = ({ s with callbacks := (ddGet s.callbacks r).2 },
      (ddGet s.callbacks r).1.map fun cb => (cb, DocName.bulk_event, doc)) := by
  simp [bulkEventH, eventOrBulkEvent, h]

/-- `datum` on a registered resource. -/
theorem datumH_found (s : RState) (doc : Doc) (r : String)
    (h : alistFind s.resources doc.resource = some r) :
    datumH s doc = ({ s with callbacks := (ddGet s.callbacks r).2 },
      (ddGet s.callbacks r).1.map fun cb => (cb, DocName.datum, doc)) := by
  simp [datumH, datumOrBulkDatum, h]

/-- `bulk_datum` on a registered resource. -/
theorem bulkDatumH_found (s : RState) (doc : Doc) (r : String)
    (h : alistFind s.resources doc.resource = some r) :
    bulkDatumH s doc = ({ s with callbacks := (ddGet s.callbacks r).2 },
      (ddGet s.callbacks r).1.map fun cb => (cb, DocName.bulk_datum, doc)) := by
  simp [bulkDatumH, datumOrBulkDatum, h]


/- ### Claim C9: cross-run isolation machinery -/

/-- Ownership oracles for cross-run isolation: which run each descriptor
and resource uid belongs to, and which callback instances the factories
create for each run. -/
structure OwnerSpec where
  descOwn : String → Option String
  resOwn : String → Option String
  madeFor : String → List Cb

/-- A factory respects the oracle on a start document when any callback it
returns is one made for that run. -/
def factoryOkB (os : OwnerSpec) (f : Factory) (doc : Doc) : Bool :=
  match f doc with
  | none => true
  | some cb => decide (cb ∈ os.madeFor doc.uid)

/-- A submission sequence is consistent with the oracles: factories only
hand out callbacks made for the started run, and each descriptor/resource
document registers a uid owned by its own `run_start` run.  A well-formed
interleaving of two runs with globally unique uids satisfies this for the
evident oracles. -/
abbrev ConsistentSeq (factories : List Factory) (os : OwnerSpec)
    (seq : List TDoc) : Prop :=
  ∀ td ∈ seq,
    (td.1 = DocName.start → ∀ f ∈ factories, factoryOkB os f td.2 = true) ∧
    (td.1 = DocName.descriptor → os.descOwn td.2.uid = some td.2.run_start) ∧
    (td.1 = DocName.resource → os.resOwn td.2.uid = some td.2.run_start)

/-- Router-state invariant: every descriptor/resource index entry maps a
uid to its owning run, and every subscriber stored under a run uid was made
for that run. -/
def GoodState (os : OwnerSpec) (s : RState) : Prop :=
  (∀ kv ∈ s.descriptors, os.descOwn kv.1 = some kv.2) ∧
  (∀ kv ∈ s.resources, os.resOwn kv.1 = some kv.2) ∧
  (∀ e ∈ s.callbacks, ∀ cb ∈ e.2, cb ∈ os.madeFor e.1)

/-- The run a tagged document belongs to, under the oracles: directly via
`uid`/`run_start`, or through its descriptor/resource reference. -/
def docRun (os : OwnerSpec) (name : DocName) (doc : Doc) : Option String :=
  match name with
  | .start => some doc.uid
  | .descriptor => some doc.run_start
  | .resource => some doc.run_start
  | .stop => some doc.run_start
  | .event => os.descOwn doc.descriptor
  | .bulk_event => os.descOwn doc.descriptor
  | .datum => os.resOwn doc.resource
  | .bulk_datum => os.resOwn doc.resource

/-- A defaultdict lookup preserves the callbacks invariant, and the list it
returns contains only callbacks made for the key's run. -/
theorem ddGet_inv (os : OwnerSpec) (m : List (String × List Cb)) (k : String)
    (hm : ∀ e ∈ m, ∀ cb ∈ e.2, cb ∈ os.madeFor e.1) :
    (∀ e ∈ (ddGet m k).2, ∀ cb ∈ e.2, cb ∈ os.madeFor e.1) ∧
    ∀ cb ∈ (ddGet m k).1, cb ∈ os.madeFor k := by
  cases hf2 : alistFind m k with
  | none =>
      rw [ddGet_of_none hf2]
      constructor
      · intro e he cb hcb
        rcases List.mem_append.1 he with h5 | h5
        · exact hm e h5 cb hcb
        · simp at h5
          subst h5
          simp at hcb
      · intro cb hcb
        simp at hcb
  | some L =>
      rw [ddGet_of_some hf2]
      exact ⟨hm, fun cb hcb => hm _ (alistFind_mem hf2) cb hcb⟩

/-- `start` preserves the callbacks invariant when every factory respects
the oracle. -/
theorem startH_inv (factories : List Factory) (os : OwnerSpec) (s : RState)
    (doc : Doc)
    (hc : ∀ e ∈ s.callbacks, ∀ cb ∈ e.2, cb ∈ os.madeFor e.1)
    (hf : ∀ f ∈ factories, factoryOkB os f doc = true) :
    ∀ e ∈ (startH factories s doc).callbacks, ∀ cb ∈ e.2,
      cb ∈ os.madeFor e.1 := by
  induction factories generalizing s with
  | nil => simpa [startH] using hc
  | cons f rest ih =>
      rw [startH]
      cases hfd : f doc with
      | none => exact ih s hc fun g hg2 => hf g (List.mem_cons_of_mem _ hg2)
      | some cb =>
          have hcb : cb ∈ os.madeFor doc.uid := by
            have h1 := hf f (by simp)
            simpa [factoryOkB, hfd] using h1
          apply ih _ ?_ fun g hg2 => hf g (List.mem_cons_of_mem _ hg2)
          intro e he cb2 hcb2
          rcases mem_alistInsert he with he1 | he1
          · subst he1
            rcases List.mem_append.1 hcb2 with h2 | h2
            · exact (ddGet_inv os s.callbacks doc.uid hc).2 cb2 h2
            · simp at h2
              subst h2
              exact hcb
          · exact (ddGet_inv os s.callbacks doc.uid hc).1 e he1 cb2 hcb2

/-- One `submit` step preserves the invariant, and every delivery it makes
goes to a callback made for the run the delivered document belongs to. -/
theorem submit_inv (factories : List Factory) (os : OwnerSpec) (s : RState)
    (name : DocName) (doc : Doc) (s2 : RState) (ds : List Delivery)
    (hg : GoodState os s)
    (hstart : name = DocName.start → ∀ f ∈ factories, factoryOkB os f doc = true)
    (hdesc : name = DocName.descriptor → os.descOwn doc.uid = some doc.run_start)
    (hres : name = DocName.resource → os.resOwn doc.uid = some doc.run_start)
    (hsub : submit factories s name doc = Except.ok (s2, ds)) :
    GoodState os s2 ∧
    ∀ d ∈ ds, ∃ r, docRun os d.2.1 d.2.2 = some r ∧ d.1 ∈ os.madeFor r := by
  obtain ⟨hgd, hgr, hgc⟩ := hg
  cases name with
  | start =>
      simp only [submit] at hsub
      injection hsub with h2
      injection h2 with h3 h4
      subst h3
      subst h4
      refine ⟨⟨?_, ?_, ?_⟩, by simp⟩
      · rw [(startH_indices_unchanged factories s doc).1]
        exact hgd
      · rw [(startH_indices_unchanged factories s doc).2]
        exact hgr
      · exact startH_inv factories os s doc hgc (hstart rfl)
  | descriptor =>
      simp only [submit] at hsub
      injection hsub with h2
      cases hfind : alistFind s.callbacks doc.run_start with
      | none =>
          rw [descriptorH_unknown s doc hfind] at h2
          injection h2 with h3 h4
          subst h3
          subst h4
          refine ⟨⟨hgd, hgr, ?_⟩, by simp⟩
          intro e he cb hcb
          rcases List.mem_append.1 he with h5 | h5
          · exact hgc e h5 cb hcb
          · simp at h5
            subst h5
            simp at hcb
      | some L =>
          by_cases hne : L = []
          · subst hne
            rw [descriptorH_empty s doc hfind] at h2
            injection h2 with h3 h4
            subst h3
            subst h4
            exact ⟨⟨hgd, hgr, hgc⟩, by simp⟩
          · rw [descriptorH_known s doc L hfind hne] at h2
            injection h2 with h3 h4
            subst h3
            subst h4
            constructor
            · refine ⟨?_, hgr, hgc⟩
              intro kv hkv
              rcases mem_alistInsert hkv with h5 | h5
              · subst h5
                exact hdesc rfl
              · exact hgd kv h5
            · intro d hd
              obtain ⟨cb, hcbL, rfl⟩ := List.mem_map.1 hd
              exact ⟨doc.run_start, rfl, hgc _ (alistFind_mem hfind) cb hcbL⟩
  | resource =>
      simp only [submit] at hsub
      injection hsub with h2
      cases hfind : alistFind s.callbacks doc.run_start with
      | none =>
          rw [resourceH_unknown s doc hfind] at h2
          injection h2 with h3 h4
          subst h3
          subst h4
          refine ⟨⟨hgd, hgr, ?_⟩, by simp⟩
          intro e he cb hcb
          rcases List.mem_append.1 he with h5 | h5
          · exact hgc e h5 cb hcb
          · simp at h5
            subst h5
            simp at hcb
      | some L =>
          by_cases hne : L = []
          · subst hne
            rw [resourceH_empty s doc hfind] at h2
            injection h2 with h3 h4
            subst h3
            subst h4
            exact ⟨⟨hgd, hgr, hgc⟩, by simp⟩
          · rw [resourceH_known s doc L hfind hne] at h2
            injection h2 with h3 h4
            subst h3
            subst h4
            constructor
            · refine ⟨hgd, ?_, hgc⟩
              intro kv hkv
              rcases mem_alistInsert hkv with h5 | h5
              · subst h5
                exact hres rfl
              · exact hgr kv h5
            · intro d hd
              obtain ⟨cb, hcbL, rfl⟩ := List.mem_map.1 hd
              exact ⟨doc.run_start, rfl, hgc _ (alistFind_mem hfind) cb hcbL⟩
  | event =>
      simp only [submit] at hsub
      injection hsub with h2
      cases hfind : alistFind s.descriptors doc.descriptor with
      | none =>
          rw [eventH_unknown s doc hfind] at h2
          injection h2 with h3 h4
          subst h3
          subst h4
          exact ⟨⟨hgd, hgr, hgc⟩, by simp⟩
      | some r =>
          rw [eventH_found s doc r hfind] at h2
          injection h2 with h3 h4
          subst h3
          subst h4
          have hown : os.descOwn doc.descriptor = some r :=
            hgd _ (alistFind_mem hfind)
          refine ⟨⟨hgd, hgr, (ddGet_inv os s.callbacks r hgc).1⟩, ?_⟩
          intro d hd
          obtain ⟨cb, hcbL, rfl⟩ := List.mem_map.1 hd
          exact ⟨r, hown, (ddGet_inv os s.callbacks r hgc).2 cb hcbL⟩
  | bulk_event =>
      simp only [submit] at hsub
      injection hsub with h2
      cases hfind : alistFind s.descriptors doc.descriptor with
      | none =>
          rw [bulkEventH_unknown s doc hfind] at h2
          injection h2 with h3 h4
          subst h3
          subst h4
          exact ⟨⟨hgd, hgr, hgc⟩, by simp⟩
      | some r =>
          rw [bulkEventH_found s doc r hfind] at h2
          injection h2 with h3 h4
          subst h3
          subst h4
          have hown : os.descOwn doc.descriptor = some r :=
            hgd _ (alistFind_mem hfind)
          refine ⟨⟨hgd, hgr, (ddGet_inv os s.callbacks r hgc).1⟩, ?_⟩
          intro d hd
          obtain ⟨cb, hcbL, rfl⟩ := List.mem_map.1 hd
          exact ⟨r, hown, (ddGet_inv os s.callbacks r hgc).2 cb hcbL⟩
  | datum =>
      simp only [submit] at hsub
      injection hsub with h2
      cases hfind : alistFind s.resources doc.resource with
      | none =>
          rw [datumH_unknown s doc hfind] at h2
          injection h2 with h3 h4
          subst h3
          subst h4
          exact ⟨⟨hgd, hgr, hgc⟩, by simp⟩
      | some r =>
          rw [datumH_found s doc r hfind] at h2
          injection h2 with h3 h4
          subst h3
          subst h4
          have hown : os.resOwn doc.resource = some r :=
            hgr _ (alistFind_mem hfind)
          refine ⟨⟨hgd, hgr, (ddGet_inv os s.callbacks r hgc).1⟩, ?_⟩
          intro d hd
          obtain ⟨cb, hcbL, rfl⟩ := List.mem_map.1 hd
          exact ⟨r, hown, (ddGet_inv os s.callbacks r hgc).2 cb hcbL⟩
  | bulk_datum =>
      simp only [submit] at hsub
      injection hsub with h2
      cases hfind : alistFind s.resources doc.resource with
      | none =>
          rw [bulkDatumH_unknown s doc hfind] at h2
          injection h2 with h3 h4
          subst h3
          subst h4
          exact ⟨⟨hgd, hgr, hgc⟩, by simp⟩
      | some r =>
          rw [bulkDatumH_found s doc r hfind] at h2
          injection h2 with h3 h4
          subst h3
          subst h4
          have hown : os.resOwn doc.resource = some r :=
            hgr _ (alistFind_mem hfind)
          refine ⟨⟨hgd, hgr, (ddGet_inv os s.callbacks r hgc).1⟩, ?_⟩
          intro d hd
          obtain ⟨cb, hcbL, rfl⟩ := List.mem_map.1 hd
          exact ⟨r, hown, (ddGet_inv os s.callbacks r hgc).2 cb hcbL⟩
  | stop =>
      simp only [submit] at hsub
      cases hfind : alistFind s.callbacks doc.run_start with
      | none =>
          rw [stopH_absent s doc hfind] at hsub
          simp at hsub
      | some cbs =>
          by_cases hne : cbs = []
          · subst hne
            rw [stopH_empty s doc hfind] at hsub
            injection hsub with h2
            injection h2 with h3 h4
            subst h3
            subst h4
            refine ⟨⟨hgd, hgr, ?_⟩, by simp⟩
            intro e he cb hcb
            exact hgc e (mem_alistErase he) cb hcb
          · rw [stopH_known s doc cbs hfind hne] at hsub
            injection hsub with h2
            injection h2 with h3 h4
            subst h3
            subst h4
            constructor
            · refine ⟨?_, ?_, ?_⟩
              · intro kv hkv
                exact hgd kv (List.mem_of_mem_filter hkv)
              · intro kv hkv
                exact hgr kv (List.mem_of_mem_filter hkv)
              · intro e he cb hcb
                exact hgc e (mem_alistErase he) cb hcb
            · intro d hd
              obtain ⟨cb, hcbL, rfl⟩ := List.mem_map.1 hd
              exact ⟨doc.run_start, rfl, hgc _ (alistFind_mem hfind) cb hcbL⟩

/-- Along any submission sequence from an invariant state, every delivery
goes to a callback made for the run its document belongs to (deliveries
made before an uncaught `KeyError` included). -/
theorem runSeq_sound (factories : List Factory) (os : OwnerSpec)
    (seq : List TDoc) (s : RState)
    (hg : GoodState os s) (hcons : ConsistentSeq factories os seq) :
    ∀ d ∈ (runSeq factories s seq).2.1,
      ∃ r, docRun os d.2.1 d.2.2 = some r ∧ d.1 ∈ os.madeFor r := by
  induction seq generalizing s with
  | nil => simp [runSeq]
  | cons td rest ih =>
      rw [runSeq]
      cases hsub : submit factories s td.1 td.2 with
      | error e => simp
      | ok p =>
          obtain ⟨s1, ds⟩ := p
          have hct := hcons td (by simp)
          have hinv := submit_inv factories os s td.1 td.2 s1 ds
            ⟨hg.1, hg.2.1, hg.2.2⟩ hct.1 hct.2.1 hct.2.2 hsub
          intro d hd
          rcases List.mem_append.1 hd with h1 | h1
          · exact hinv.2 d h1
          · exact ih s1 hinv.1
              (fun td2 h2 => hcons td2 (List.mem_cons_of_mem _ h2)) d h1



/-- C9: for two runs A and B with distinct uids, over any submission
sequence consistent with the ownership oracles (factories hand out run-A
callbacks only at A's start, descriptor/resource uids are registered by
their owning run — as any interleaving of two runs with globally unique
uids satisfies), and with the callback instances made for A disjoint from
those made for B (factories create fresh subscribers per run), no delivery
of a document belonging to A goes to a callback made for B, and vice
versa — regardless of the interleaving. -/
theorem c9_run_isolation (factories : List Factory) (os : OwnerSpec)
    (seq : List TDoc) (A B : String) (hAB : A ≠ B)
    (hcons : ConsistentSeq factories os seq)
    (hdisjAB : ∀ cb ∈ os.madeFor A, cb ∉ os.madeFor B)
    (hdisjBA : ∀ cb ∈ os.madeFor B, cb ∉ os.madeFor A) :
    (∀ d ∈ (runSeq factories initState seq).2.1,
       docRun os d.2.1 d.2.2 = some A → d.1 ∉ os.madeFor B) ∧
    (∀ d ∈ (runSeq factories initState seq).2.1,
       docRun os d.2.1 d.2.2 = some B → d.1 ∉ os.madeFor A) := by
  have hg : GoodState os initState :=
    ⟨by simp [initState], by simp [initState], by simp [initState]⟩
  have hs := runSeq_sound factories os seq initState hg hcons
  constructor
  · intro d hd hA
    obtain ⟨r, hr, hmem⟩ := hs d hd
    have h1 : A = r := by
      have h2 := hA.symm.trans hr
      injection h2
    subst h1
    exact hdisjAB _ hmem
  · intro d hd hB
    obtain ⟨r, hr, hmem⟩ := hs d hd
    have h1 : B = r := by
      have h2 := hB.symm.trans hr
      injection h2
    subst h1
    exact hdisjBA _ hmem

/-- Concrete factories for the C9 witness: one factory returning a fresh
per-run callback. -/
def wFactories : List Factory :=
  [fun d => if d.uid = "A" then some 1 else some 2]

/-- Concrete ownership oracles for the C9 witness. -/
def wOS : OwnerSpec :=
  { descOwn := fun d =>
      if d = "dA" then some "A" else if d = "dB" then some "B" else none,
    resOwn := fun _ => none,
    madeFor := fun r => if r = "A" then [1] else if r = "B" then [2] else [] }

/-- Concrete interleaved two-run submission sequence for the C9 witness. -/
def wSeq : List TDoc :=
  [(DocName.start, { uid := "A" }),
   (DocName.start, { uid := "B" }),
   (DocName.descriptor, { uid := "dA", run_start := "A" }),
   (DocName.descriptor, { uid := "dB", run_start := "B" }),
   (DocName.event, { descriptor := "dA" }),
   (DocName.event, { descriptor := "dB" }),
   (DocName.stop, { run_start := "A" }),
   (DocName.stop, { run_start := "B" })]

/-- C9 witness: the isolation theorem at a concrete interleaving of two
runs. -/
theorem c9_witness :
    (∀ d ∈ (runSeq wFactories initState wSeq).2.1,
       docRun wOS d.2.1 d.2.2 = some "A" → d.1 ∉ wOS.madeFor "B") ∧
    (∀ d ∈ (runSeq wFactories initState wSeq).2.1,
       docRun wOS d.2.1 d.2.2 = some "B" → d.1 ∉ wOS.madeFor "A") :=
  c9_run_isolation wFactories wOS wSeq "A" "B" (by decide) (by decide)
    (by decide) (by decide)


end BlueskyRouter
